import Mathlib

/-!
Shallow embedding of `chart.py`, a one-shot script that synthesizes a table of
(segment, purchase amount) rows, winsorizes each segment at its 99.5th
percentile, and renders a box plot saved as one PNG.

Purchase amounts are modelled as rationals.  The numpy random generator is
modelled by the lists of draws it hands to each sampling call: the script's
behaviour is a pure function of those draws, which is exactly how the code
consumes the generator.  Facts that come from library semantics (lognormal
samples are positive, `rng.xxx(size=n)` returns `n` samples) appear as
hypotheses of the theorems and are discharged on concrete inputs in the
witnesses.
-/

/-- Configuration of one customer segment, one dict of the `segments` list
(lines 16-21 of `chart.py`): display name, lognormal mean `mu`, lognormal
`sigma`, and sample count `n`. -/
structure Segment where
  name : String
  mu : ℚ
  sigma : ℚ
  n : ℕ

/-- The four fixed segment configurations of `chart.py` lines 16-21. -/
def segments : List Segment :=
  [⟨"Value", 3.2, 0.55, 400⟩,
   ⟨"Mid", 3.8, 0.50, 400⟩,
   ⟨"Premium", 4.3, 0.45, 350⟩,
   ⟨"VIP", 4.8, 0.40, 250⟩]

/-- Random draws consumed by one iteration of the generation loop
(lines 24-38): `base = rng.lognormal(mu, sigma, size=n)`,
`noise = rng.normal(0, 5, size=n)`, and
`outliers = rng.lognormal(mu+1.1, sigma+0.3, size=outlier_count)`. -/
structure SegDraws where
  base : List ℚ
  noise : List ℚ
  outliers : List ℚ

/-- Line 33: `outlier_count = max(1, seg["n"] // 50)`. -/
def outlierCount (n : ℕ) : ℕ := max 1 (n / 50)

/-- Lines 29-30: `amounts = np.clip(base + noise, 1, None)` — elementwise sum
then a lower clamp at 1 (no upper bound). -/
def clipAmounts (base noise : List ℚ) : List ℚ :=
  (List.zipWith (fun a b => a + b) base noise).map (fun x => max x 1)

/-- Line 35: `amounts[:k] = amounts[:k] + outliers` — the first `k` entries
get the outlier draws added on; the rest are untouched. -/
def injectOutliers (amounts outliers : List ℚ) (k : ℕ) : List ℚ :=
  List.zipWith (fun a b => a + b) (amounts.take k) outliers ++ amounts.drop k

/-- Amounts of one segment after lines 26-35: clip of base plus noise,
then outlier injection into the first `outlier_count` slots. -/
def segmentAmounts (seg : Segment) (d : SegDraws) : List ℚ :=
  injectOutliers (clipAmounts d.base d.noise) d.outliers (outlierCount seg.n)

/-- Lines 37-38: the records appended for one segment, each amount labelled
with the segment name. -/
def segmentRows (seg : Segment) (d : SegDraws) : List (String × ℚ) :=
  (segmentAmounts seg d).map (fun a => (seg.name, a))

/-- Lines 23-40: the DataFrame `df` as the concatenation of every segment's
rows, in segment order. -/
def buildRecords (draws : List SegDraws) : List (String × ℚ) :=
  (List.zipWith segmentRows segments draws).flatten

/-- The 99.5th percentile with pandas' default linear interpolation
(`Series.quantile(0.995)`): on the ascending sort `s` of the values, at
fractional position `p = 0.995 * (len - 1)` with `i = floor p`, the value
`s[i] + (p - i) * (s[i+1] - s[i])` (the last term degenerates at the top
index).  The empty case never arises in the script. -/
def quantile995 (xs : List ℚ) : ℚ :=
  let s := xs.mergeSort (fun a b => a ≤ b)
  let m := s.length
  if m = 0 then 0
  else
    let p : ℚ := (995/1000) * ((m : ℚ) - 1)
    let i : ℕ := (⌊p⌋).toNat
    let lo := s.getD i 0
    let hi := s.getD (i+1) lo
    lo + (p - (i : ℚ)) * (hi - lo)

/-- Line 44 and line 45: the per-segment cap
`df.groupby("Segment")["Purchase Amount ($)"].quantile(0.995)` mapped back
onto a row's segment label. -/
def capFor (rows : List (String × ℚ)) (s : String) : ℚ :=
  quantile995 ((rows.filter (fun r => r.1 == s)).map Prod.snd)

/-- Lines 46-48: `np.where(amount > cap, cap, amount)` applied to every row,
with each row's cap taken from its own segment's pre-cap quantile. -/
def capTable (rows : List (String × ℚ)) : List (String × ℚ) :=
  rows.map (fun r => (r.1, if capFor rows r.1 < r.2 then capFor rows r.1 else r.2))

/-- Line 52: `order = ["Value", "Mid", "Premium", "VIP"]`. -/
def order : List String := ["Value", "Mid", "Premium", "VIP"]

/-- Lines 61-73: the boxplot draws, for each label of `order` in that order,
one box over the amounts of the rows carrying that label. -/
def boxplotBoxes (rows : List (String × ℚ)) : List (String × List ℚ) :=
  order.map (fun s => (s, (rows.filter (fun r => r.1 == s)).map Prod.snd))

/-- Python `int(t)` on line 82: truncation toward zero, written through the
floor function. -/
def pyInt (q : ℚ) : ℤ := if 0 ≤ q then ⌊q⌋ else -⌊-q⌋

/-- Comma insertion of the `,` format spec, working on a reversed digit
list: after every three digits taken from the right, a comma is inserted. -/
def commaRev : List Char → List Char
  | d1 :: d2 :: d3 :: d4 :: rest => d1 :: d2 :: d3 :: ',' :: commaRev (d4 :: rest)
  | ds => ds

/-- Thousands-separated decimal rendering of a natural number. -/
def commaNat (n : ℕ) : String := ⟨(commaRev (Nat.repr n).data.reverse).reverse⟩

/-- Python `f"{z:,}"` for an integer: optional sign, then the
thousands-separated digits. -/
def commaFmt (z : ℤ) : String := (if z < 0 then "-" else "") ++ commaNat z.natAbs

/-- Rounding to the nearest integer with ties to even, the rounding used by
Python's fixed-point float formatting. -/
def roundHalfEven (x : ℚ) : ℤ :=
  let f := ⌊x⌋
  let r := x - f
  if r < 1/2 then f
  else if 1/2 < r then f + 1
  else if f % 2 = 0 then f else f + 1

/-- Two-digit zero-padded rendering of a value below 100. -/
def twoPad (n : ℕ) : String := if n < 10 then "0" ++ Nat.repr n else Nat.repr n

/-- Python `f"{t:.2f}"` on line 82: the value rounded to two decimal places
(ties to even), rendered with a sign taken from the value, an integer part,
a dot and exactly two fractional digits. -/
def fixed2 (q : ℚ) : String :=
  let c := roundHalfEven (q * 100)
  (if q < 0 then "-" else "") ++ Nat.repr (c.natAbs / 100) ++ "." ++ twoPad (c.natAbs % 100)

/-- Line 82: the y tick label
`f"${int(t):,}" if t >= 1 else f"${t:.2f}"`. -/
def tickLabel (t : ℚ) : String :=
  if 1 ≤ t then "$" ++ commaFmt (pyInt t) else "$" ++ fixed2 t

/-- Truncation toward zero stated the spec's way: the integer part of the
magnitude, with the sign of the value reapplied. -/
def ratTrunc (q : ℚ) : ℤ := q.num.sign * ((q.num.natAbs / q.den : ℕ) : ℤ)

/-- Tick label as the claim words it: a dollar sign followed by the
thousands-separated integer truncation for `t >= 1`, and a dollar sign
followed by the value rounded to two decimal places for `t < 1`. -/
def specTickLabel (t : ℚ) : String :=
  if 1 ≤ t then "$" ++ commaFmt (ratTrunc t) else "$" ++ fixed2 t

/-- Pixel extent (width = height: everything is square here) of the image
`plt.savefig` writes: `figsize * dpi` when no `bbox_inches` override is
given; with `bbox_inches="tight"` matplotlib recomputes the output box from
the drawn artists and the written extent is that tight box (in inches) times
`dpi` instead of the figure's own size. -/
def savefigPixels (figExtent dpi : ℚ) : Option ℚ → ℚ
  | none => figExtent * dpi
  | some tightExtent => tightExtent * dpi

/-- Lines 57-58 and 89: the script creates an 8x8 inch figure and calls
`plt.savefig("chart.png", dpi=64, bbox_inches="tight")`, so the written
extent is governed by the tight box, not by the 8 inch figure. -/
def chartSavedPixels (tightExtent : ℚ) : ℚ := savefigPixels 8 64 (some tightExtent)

/-- Output files written by the script: the single `savefig` target of
line 89. -/
def outputFiles : List String := ["chart.png"]

/-- Axis state mutated by the labelling calls of lines 76-82; the DataFrame
itself rides along unchanged. -/
structure RenderState where
  table : List (String × ℚ)
  boxes : List (String × List ℚ)
  title : String
  xlabel : String
  ylabel : String
  ytickLabels : List String

/-- State right after the boxplot call of lines 61-73 consumed the capped
table. -/
def initialRender (t : List (String × ℚ)) : RenderState :=
  { table := t, boxes := boxplotBoxes t, title := "", xlabel := "", ylabel := "",
    ytickLabels := [] }

/-- Lines 76-82 as state transformers: `set_title`, `set_xlabel`,
`set_ylabel`, `set_yticklabels` over the ticks matplotlib chose.  Each one
writes an axis field and leaves the table alone. -/
def renderSteps (yticks : List ℚ) : List (RenderState → RenderState) :=
  [fun st => { st with title := "Distribution of Purchase Amounts by Customer Segment" },
   fun st => { st with xlabel := "Customer Segment" },
   fun st => { st with ylabel := "Purchase Amount ($)" },
   fun st => { st with ytickLabels := yticks.map tickLabel }]

/-- The whole rendering stage after capping: boxplot, then the labelling
steps in script order. -/
def runRender (t : List (String × ℚ)) (yticks : List ℚ) : RenderState :=
  (renderSteps yticks).foldl (fun st f => f st) (initialRender t)

/-- Spec 4.1 step: draw the configured number of samples from a skewed
positive distribution — in the embedding, the base draws themselves. -/
def drawSamples (d : SegDraws) : List ℚ := d.base

/-- Spec 4.1 step: add small independent noise. -/
def addNoise (xs noise : List ℚ) : List ℚ := List.zipWith (fun a b => a + b) xs noise

/-- Spec 4.1 step: floor values at a minimum of 1. -/
def floorAtOne (xs : List ℚ) : List ℚ := xs.map (fun x => max x 1)

/-- Spec 4.1 step: inject the handful of additional high-value samples into
the segment's amounts (onto its leading slots). -/
def injectHigh (xs outs : List ℚ) : List ℚ :=
  List.zipWith (fun a b => a + b) (xs.take outs.length) outs ++ xs.drop outs.length

/-- Spec 4.1 pipeline in the spec's stated order: draw, add noise, floor at
1, inject the outliers, then label with the segment name. -/
def specSegmentRows (seg : Segment) (d : SegDraws) : List (String × ℚ) :=
  (injectHigh (floorAtOne (addNoise (drawSamples d) d.noise)) d.outliers).map
    (fun a => (seg.name, a))

/-- Spec 4.1 table: the concatenation of every segment's rows. -/
def specTable (draws : List SegDraws) : List (String × ℚ) :=
  (List.zipWith specSegmentRows segments draws).flatten

/-! Helper lemmas. -/

/-- Python `int` truncation agrees with the sign-magnitude description of
truncation toward zero. -/
theorem pyInt_eq_ratTrunc (q : ℚ) : pyInt q = ratTrunc q := by
  unfold pyInt ratTrunc
  rcases lt_trichotomy q.num 0 with hn | hn | hn
  · have hq : ¬ (0 ≤ q) := by
      rw [not_le, ← Rat.num_neg]
      exact hn
    rw [if_neg hq]
    have hfloor : ⌊-q⌋ = (-q.num) / (q.den : ℤ) := by
      rw [Rat.floor_def]
      rfl
    rw [hfloor]
    have h1 : (-q.num) = (q.num.natAbs : ℤ) := by omega
    rw [h1, ← Int.natCast_div]
    have hs : q.num.sign = -1 := Int.sign_eq_neg_one_of_neg hn
    rw [hs]
    ring
  · have hq : (0:ℚ) ≤ q := by
      rw [← Rat.num_nonneg]
      omega
    rw [if_pos hq, Rat.floor_def]
    have h0 : q.num = 0 := hn
    simp [h0]
  · have hq : (0:ℚ) ≤ q := by
      rw [← Rat.num_nonneg]
      omega
    rw [if_pos hq, Rat.floor_def]
    have h1 : q.num = (q.num.natAbs : ℤ) := by omega
    have hs : q.num.sign = 1 := Int.sign_eq_one_of_pos hn
    rw [hs, one_mul, Int.natCast_div, ← h1]

/-- Linear interpolation between two values that are at least 1, with an
interpolation weight in `[0, 1)`, stays at least 1. -/
theorem interp_ge_one (lo hi f : ℚ) (hlo : 1 ≤ lo) (hhi : 1 ≤ hi)
    (hf0 : 0 ≤ f) (hf1 : f < 1) : 1 ≤ lo + f * (hi - lo) := by
  nlinarith

/-- The 99.5th percentile of a nonempty list of values that are all at least
1 is itself at least 1. -/
theorem quantile995_ge_one (xs : List ℚ) (hne : xs ≠ [])
    (h1 : ∀ x ∈ xs, 1 ≤ x) : 1 ≤ quantile995 xs := by
  have hperm := List.mergeSort_perm xs (fun a b => a ≤ b)
  have hmem : ∀ x ∈ xs.mergeSort (fun a b => a ≤ b), 1 ≤ x :=
    fun x hx => h1 x (hperm.mem_iff.mp hx)
  have hm : (xs.mergeSort (fun a b => a ≤ b)).length ≠ 0 := by
    rw [hperm.length_eq]
    exact fun h => hne (List.eq_nil_of_length_eq_zero h)
  simp only [quantile995]
  rw [if_neg hm]
  set s := xs.mergeSort (fun a b => a ≤ b) with hs
  set p : ℚ := (995/1000) * ((s.length : ℚ) - 1) with hp
  have hlen1 : 1 ≤ s.length := Nat.one_le_iff_ne_zero.mpr hm
  have hlenq : (1:ℚ) ≤ (s.length : ℚ) := by exact_mod_cast hlen1
  have hp0 : 0 ≤ p := by rw [hp]; nlinarith
  have hfl0 : (0:ℤ) ≤ ⌊p⌋ := Int.floor_nonneg.mpr hp0
  set i : ℕ := (⌊p⌋).toNat with hi
  have hiz : ((i : ℕ) : ℤ) = ⌊p⌋ := by
    rw [hi]
    exact Int.toNat_of_nonneg hfl0
  have hic : ((i : ℕ) : ℚ) = ((⌊p⌋ : ℤ) : ℚ) := by
    exact_mod_cast hiz
  have hfle : ((i : ℕ) : ℚ) ≤ p := by rw [hic]; exact Int.floor_le p
  have hflt : p < ((i : ℕ) : ℚ) + 1 := by rw [hic]; exact_mod_cast Int.lt_floor_add_one p
  have hple : p ≤ (s.length : ℚ) - 1 := by rw [hp]; nlinarith
  have hilt : i < s.length := by
    have h2 : ⌊p⌋ ≤ ⌊(s.length : ℚ) - 1⌋ := Int.floor_le_floor hple
    have h3 : ((s.length : ℚ) - 1) = (((s.length : ℤ) - 1 : ℤ) : ℚ) := by push_cast; ring
    rw [h3, Int.floor_intCast] at h2
    omega
  have hgl : s.getD i 0 = s.get ⟨i, hilt⟩ := by
    simp [List.getD_eq_getElem?_getD, List.getElem?_eq_getElem hilt]
  have hlo1 : 1 ≤ s.getD i 0 := by
    rw [hgl]
    exact hmem _ (List.get_mem s i hilt)
  have hhi1 : 1 ≤ s.getD (i+1) (s.getD i 0) := by
    by_cases hi2 : i + 1 < s.length
    · have : s.getD (i+1) (s.getD i 0) = s.get ⟨i+1, hi2⟩ := by
        simp [List.getD_eq_getElem?_getD, List.getElem?_eq_getElem hi2]
      rw [this]
      exact hmem _ (List.get_mem s (i+1) hi2)
    · have hge : s.length ≤ i + 1 := le_of_not_lt hi2
      have : s.getD (i+1) (s.getD i 0) = s.getD i 0 := by
        simp [List.getD_eq_getElem?_getD, List.getElem?_eq_none hge]
      rw [this]
      exact hlo1
  exact interp_ge_one _ _ _ hlo1 hhi1 (by linarith) (by linarith)

/-- Every amount coming out of the clip of line 30 is at least 1. -/
theorem mem_clipAmounts_ge_one (base noise : List ℚ) :
    ∀ x ∈ clipAmounts base noise, 1 ≤ x := by
  intro x hx
  rcases List.mem_map.mp hx with ⟨y, _, rfl⟩
  exact le_max_right y 1

/-- Adding nonnegative values elementwise keeps every entry at least 1. -/
theorem zipWith_add_ge_one :
    ∀ (xs ys : List ℚ), (∀ x ∈ xs, 1 ≤ x) → (∀ y ∈ ys, 0 ≤ y) →
      ∀ z ∈ List.zipWith (fun a b => a + b) xs ys, 1 ≤ z := by
  intro xs
  induction xs with
  | nil => intro ys _ _ z hz; simp at hz
  | cons x xs ih =>
    intro ys hx hy z hz
    cases ys with
    | nil => simp at hz
    | cons y ys =>
      rw [List.zipWith_cons_cons] at hz
      rcases List.mem_cons.mp hz with rfl | hz
      · have h1 : 1 ≤ x := hx x (List.mem_cons_self x xs)
        have h2 : 0 ≤ y := hy y (List.mem_cons_self y ys)
        linarith
      · exact ih ys (fun a ha => hx a (List.mem_cons_of_mem x ha))
          (fun b hb => hy b (List.mem_cons_of_mem y hb)) z hz

/-- After outlier injection every amount of a segment is still at least 1,
provided the injected lognormal draws are nonnegative. -/
theorem mem_segmentAmounts_ge_one (seg : Segment) (d : SegDraws)
    (ho : ∀ y ∈ d.outliers, 0 ≤ y) :
    ∀ x ∈ segmentAmounts seg d, 1 ≤ x := by
  intro x hx
  unfold segmentAmounts injectOutliers at hx
  have hclip := mem_clipAmounts_ge_one d.base d.noise
  rcases List.mem_append.mp hx with hx | hx
  · exact zipWith_add_ge_one _ _
      (fun a ha => hclip a (List.mem_of_mem_take ha)) ho x hx
  · exact hclip x (List.mem_of_mem_drop hx)

/-- A member of a `zipWith` image comes from members of the two lists. -/
theorem exists_of_mem_zipWith {α β γ : Type} {f : α → β → γ} :
    ∀ {as : List α} {bs : List β} {c : γ}, c ∈ List.zipWith f as bs →
      ∃ a ∈ as, ∃ b ∈ bs, c = f a b := by
  intro as
  induction as with
  | nil => intro bs c h; simp at h
  | cons a as ih =>
    intro bs c h
    cases bs with
    | nil => simp at h
    | cons b bs =>
      rw [List.zipWith_cons_cons] at h
      rcases List.mem_cons.mp h with rfl | h
      · exact ⟨a, List.mem_cons_self a as, b, List.mem_cons_self b bs, rfl⟩
      · rcases ih h with ⟨a2, ha2, b2, hb2, hc⟩
        exact ⟨a2, List.mem_cons_of_mem a ha2, b2, List.mem_cons_of_mem b hb2, hc⟩

/-- Every row of the generated table carries an amount of at least 1,
provided all outlier draws are nonnegative. -/
theorem buildRecords_snd_ge_one (draws : List SegDraws)
    (h : ∀ d ∈ draws, ∀ y ∈ d.outliers, 0 ≤ y) :
    ∀ r ∈ buildRecords draws, 1 ≤ r.2 := by
  intro r hr
  unfold buildRecords at hr
  rcases List.mem_flatten.mp hr with ⟨l, hl, hrl⟩
  rcases exists_of_mem_zipWith hl with ⟨seg, _, d, hd, rfl⟩
  rcases List.mem_map.mp hrl with ⟨a, ha, rfl⟩
  exact mem_segmentAmounts_ge_one seg d (h d hd) a ha

/-- Every row of the capped table carries an amount of at least 1 when the
pre-cap table does. -/
theorem capTable_snd_ge_one (rows : List (String × ℚ))
    (h : ∀ r ∈ rows, 1 ≤ r.2) :
    ∀ r ∈ capTable rows, 1 ≤ r.2 := by
  intro r hr
  rcases List.mem_map.mp hr with ⟨r0, hr0, rfl⟩
  by_cases hc : capFor rows r0.1 < r0.2
  · simp only [hc, if_pos]
    have hmem : r0.2 ∈ (rows.filter (fun r => r.1 == r0.1)).map Prod.snd :=
      List.mem_map.mpr ⟨r0, List.mem_filter.mpr ⟨hr0, by simp⟩, rfl⟩
    have hne : (rows.filter (fun r => r.1 == r0.1)).map Prod.snd ≠ [] :=
      List.ne_nil_of_mem hmem
    have hall : ∀ x ∈ (rows.filter (fun r => r.1 == r0.1)).map Prod.snd, 1 ≤ x := by
      intro x hx
      rcases List.mem_map.mp hx with ⟨r2, hr2, rfl⟩
      exact h r2 (List.mem_of_mem_filter hr2)
    exact quantile995_ge_one _ hne hall
  · simp only [hc, if_neg, if_false]
    exact h r0 hr0

/-- Length of a segment's amount vector: exactly the configured sample
count, given the sizes the generator was asked for. -/
theorem segmentAmounts_length (seg : Segment) (d : SegDraws)
    (hb : d.base.length = seg.n) (hn : d.noise.length = seg.n)
    (ho : d.outliers.length = outlierCount seg.n)
    (hk : outlierCount seg.n ≤ seg.n) :
    (segmentAmounts seg d).length = seg.n := by
  simp only [segmentAmounts, injectOutliers, clipAmounts, List.length_append,
    List.length_zipWith, List.length_map, List.length_take, List.length_drop,
    hb, hn, ho]
  omega

/-- Length of a segment's labelled rows. -/
theorem segmentRows_length (seg : Segment) (d : SegDraws)
    (hb : d.base.length = seg.n) (hn : d.noise.length = seg.n)
    (ho : d.outliers.length = outlierCount seg.n)
    (hk : outlierCount seg.n ≤ seg.n) :
    (segmentRows seg d).length = seg.n := by
  simp only [segmentRows, List.length_map]
  exact segmentAmounts_length seg d hb hn ho hk

/-- Counting rows of a label over a block labelled with that same name gives
the block's size. -/
theorem countP_label_self (l : List ℚ) (s : String) :
    (l.map (fun a => (s, a))).countP (fun r => r.1 == s) = l.length := by
  simp [List.countP_map, Function.comp]

/-- Counting rows of a label over a block labelled with a different name
gives zero. -/
theorem countP_label_ne (l : List ℚ) (s t : String) (h : s ≠ t) :
    (l.map (fun a => (s, a))).countP (fun r => r.1 == t) = 0 := by
  simp [List.countP_map, Function.comp]
  intro x hx
  simpa using h

/-- One segment's code-side rows coincide with the spec-side pipeline
(draw, add noise, floor at one, inject the high draws, label) whenever the
outlier vector has the size the code asked the generator for. -/
theorem segmentRows_eq_spec (seg : Segment) (d : SegDraws)
    (ho : d.outliers.length = outlierCount seg.n) :
    segmentRows seg d = specSegmentRows seg d := by
  unfold segmentRows specSegmentRows segmentAmounts injectOutliers injectHigh
    clipAmounts floorAtOne addNoise drawSamples
  rw [ho]

/-- Every row of the generated table carries one of the configured segment
names. -/
theorem buildRecords_fst_mem (draws : List SegDraws) :
    ∀ r ∈ buildRecords draws, r.1 ∈ segments.map Segment.name := by
  intro r hr
  unfold buildRecords at hr
  rcases List.mem_flatten.mp hr with ⟨l, hl, hrl⟩
  rcases exists_of_mem_zipWith hl with ⟨seg, hseg, d, _, rfl⟩
  rcases List.mem_map.mp hrl with ⟨a, _, rfl⟩
  exact List.mem_map.mpr ⟨seg, hseg, rfl⟩

/-! Claim theorems. -/

/-- C1: the per-segment capping step never increases a row's purchase
amount: it preserves the segment label, never raises the value, leaves a
value at or below its segment's 99.5th percentile unchanged, and clamps a
value above it to exactly that percentile. -/
theorem capping_never_increases (rows : List (String × ℚ)) (i : ℕ)
    (h : i < rows.length) :
    ((capTable rows).getD i ("", 0)).1 = (rows.getD i ("", 0)).1 ∧
    ((capTable rows).getD i ("", 0)).2 ≤ (rows.getD i ("", 0)).2 ∧
    ((rows.getD i ("", 0)).2 ≤ capFor rows (rows.getD i ("", 0)).1 →
      (capTable rows).getD i ("", 0) = rows.getD i ("", 0)) ∧
    (capFor rows (rows.getD i ("", 0)).1 < (rows.getD i ("", 0)).2 →
      ((capTable rows).getD i ("", 0)).2 = capFor rows (rows.getD i ("", 0)).1) := by
  have hm : i < (capTable rows).length := by
    simpa [capTable] using h
  have hgd : rows.getD i ("", 0) = rows.get ⟨i, h⟩ := by
    simp [List.getD_eq_getElem?_getD, List.getElem?_eq_getElem h]
  have hgd2 : (capTable rows).getD i ("", 0) = (capTable rows).get ⟨i, hm⟩ := by
    simp [List.getD_eq_getElem?_getD, List.getElem?_eq_getElem hm]
  have hmap : (capTable rows).get ⟨i, hm⟩ =
      ((rows.get ⟨i, h⟩).1,
        if capFor rows (rows.get ⟨i, h⟩).1 < (rows.get ⟨i, h⟩).2
        then capFor rows (rows.get ⟨i, h⟩).1 else (rows.get ⟨i, h⟩).2) := by
    simp [capTable]
  rw [hgd, hgd2, hmap]
  refine ⟨rfl, ?_, ?_, ?_⟩
  · by_cases hc : capFor rows (rows.get ⟨i, h⟩).1 < (rows.get ⟨i, h⟩).2
    · rw [if_pos hc]
      exact le_of_lt hc
    · rw [if_neg hc]
  · intro hle
    rw [if_neg (not_lt.mpr hle)]
  · intro hgt
    rw [if_pos hgt]

theorem capping_never_increases_witness :
    (0 : ℕ) < ([("Value", (5:ℚ)), ("Value", 2)] : List (String × ℚ)).length ∧
    ((capTable [("Value", (5:ℚ)), ("Value", 2)]).getD 0 ("", 0)).2 ≤
      (([("Value", (5:ℚ)), ("Value", 2)] : List (String × ℚ)).getD 0 ("", 0)).2 :=
  ⟨by norm_num, (capping_never_increases [("Value", 5), ("Value", 2)] 0 (by norm_num)).2.1⟩

/-- C2: at every stage after the floor step — right after the clip, after
outlier injection (the rows of the generated table), and after capping —
every purchase amount is at least 1, given that the injected lognormal
draws are nonnegative (numpy's lognormal samples are in fact strictly
positive). -/
theorem amounts_ge_one (draws : List SegDraws)
    (h : ∀ d ∈ draws, ∀ y ∈ d.outliers, 0 ≤ y) :
    (∀ d ∈ draws, ∀ x ∈ clipAmounts d.base d.noise, 1 ≤ x) ∧
    (∀ d ∈ draws, ∀ seg : Segment, ∀ x ∈ segmentAmounts seg d, 1 ≤ x) ∧
    (∀ r ∈ buildRecords draws, 1 ≤ r.2) ∧
    (∀ r ∈ capTable (buildRecords draws), 1 ≤ r.2) := by
  refine ⟨?_, ?_, ?_, ?_⟩
  · intro d _ x hx
    exact mem_clipAmounts_ge_one d.base d.noise x hx
  · intro d hd seg x hx
    exact mem_segmentAmounts_ge_one seg d (h d hd) x hx
  · exact buildRecords_snd_ge_one draws h
  · exact capTable_snd_ge_one _ (buildRecords_snd_ge_one draws h)

theorem amounts_ge_one_witness :
    (∀ d ∈ [SegDraws.mk [2] [0] [3]], ∀ y ∈ d.outliers, (0:ℚ) ≤ y) ∧
    (∀ r ∈ capTable (buildRecords [SegDraws.mk [2] [0] [3]]), 1 ≤ r.2) :=
  have hh : ∀ d ∈ [SegDraws.mk [2] [0] [3]], ∀ y ∈ d.outliers, (0:ℚ) ≤ y := by
    intro d hd y hy
    rcases List.mem_singleton.mp hd with rfl
    rcases List.mem_singleton.mp hy with rfl
    norm_num
  ⟨hh, (amounts_ge_one [SegDraws.mk [2] [0] [3]] hh).2.2.2⟩

/-- C5: the model of the saved image: without the `bbox_inches="tight"`
override an 8 inch figure at 64 dpi would be written at exactly 512 pixels,
but the script's call (`chartSavedPixels`) goes through the tight box, and
its output is 512 pixels only in the coincidental case of a tight box of
exactly 8 inches. -/
theorem saved_image_pixels :
    savefigPixels 8 64 none = 512 ∧
    (∀ tw : ℚ, tw ≠ 8 → chartSavedPixels tw ≠ 512) ∧
    outputFiles.length = 1 := by
  refine ⟨by norm_num [savefigPixels], ?_, rfl⟩
  intro tw h hc
  apply h
  simp only [chartSavedPixels, savefigPixels] at hc
  linarith

theorem saved_image_pixels_witness :
    (9:ℚ) ≠ 8 ∧ chartSavedPixels 9 ≠ 512 :=
  ⟨by norm_num, saved_image_pixels.2.1 9 (by norm_num)⟩

/-- C7: the synthesis and capping stages are a deterministic function of
the random draws (hence of the seed): two runs over equal draw streams
produce identical tables, before and after capping. -/
theorem deterministic_given_seed (draws1 draws2 : List SegDraws)
    (h : draws1 = draws2) :
    buildRecords draws1 = buildRecords draws2 ∧
    capTable (buildRecords draws1) = capTable (buildRecords draws2) := by
  subst h
  exact ⟨rfl, rfl⟩

theorem deterministic_given_seed_witness :
    ([SegDraws.mk [2] [0] [3]] : List SegDraws) = [SegDraws.mk [2] [0] [3]] ∧
    capTable (buildRecords [SegDraws.mk [2] [0] [3]]) =
      capTable (buildRecords [SegDraws.mk [2] [0] [3]]) :=
  ⟨rfl, (deterministic_given_seed [SegDraws.mk [2] [0] [3]] [SegDraws.mk [2] [0] [3]] rfl).2⟩

/-- C8: after the capping step no operation changes the table: the boxplot
consumes it as is, and every labelling step of the rendering stage
preserves both the table and the drawn boxes. -/
theorem no_mutation_after_cap (t : List (String × ℚ)) (yticks : List ℚ) :
    (runRender t yticks).table = t ∧
    (runRender t yticks).boxes = boxplotBoxes t ∧
    (∀ f ∈ renderSteps yticks, ∀ st : RenderState,
      (f st).table = st.table ∧ (f st).boxes = st.boxes) := by
  refine ⟨rfl, rfl, ?_⟩
  intro f hf st
  simp only [renderSteps, List.mem_cons, List.not_mem_nil, or_false] at hf
  rcases hf with rfl | rfl | rfl | rfl
  · exact ⟨rfl, rfl⟩
  · exact ⟨rfl, rfl⟩
  · exact ⟨rfl, rfl⟩
  · exact ⟨rfl, rfl⟩

theorem no_mutation_after_cap_witness :
    (runRender [("Value", (2:ℚ))] [1]).table = [("Value", (2:ℚ))] :=
  (no_mutation_after_cap [("Value", 2)] [1]).1

/-- C9: after capping, every row's amount is at most the 99.5th percentile
of its segment as computed on the pre-cap table. -/
theorem capped_le_percentile (rows : List (String × ℚ)) :
    ∀ r ∈ capTable rows, r.2 ≤ capFor rows r.1 := by
  intro r hr
  rcases List.mem_map.mp hr with ⟨r0, _, rfl⟩
  by_cases hc : capFor rows r0.1 < r0.2
  · simp only [if_pos hc]
    exact le_refl _
  · simp only [if_neg hc]
    exact le_of_not_lt hc

theorem capped_le_percentile_witness :
    (("Value", (997/200 : ℚ)) : String × ℚ).2 ≤
      capFor [("Value", (5:ℚ)), ("Value", 2)] "Value" :=
  capped_le_percentile [("Value", 5), ("Value", 2)] ("Value", 997/200)
    (by
      norm_num [capTable, capFor, quantile995, List.mergeSort, List.getD,
        Int.toNat, List.filter]
      left
      rw [if_neg (by simp : ¬ ([(("Value":String), (5:ℚ)), ("Value", 2)] = []))]
      norm_num)

/-- C6: one box per segment in the fixed display order: the `order` list is
exactly the four segment names Value, Mid, Premium, VIP in configuration
order (lower to higher spend), the boxplot draws its boxes with exactly
those labels in that order, and every generated row's label is one of
them. -/
theorem box_order :
    order = ["Value", "Mid", "Premium", "VIP"] ∧
    order = segments.map Segment.name ∧
    (∀ t : List (String × ℚ), (boxplotBoxes t).map Prod.fst = order) ∧
    (∀ t : List (String × ℚ), (boxplotBoxes t).length = 4) ∧
    (∀ draws : List SegDraws, ∀ r ∈ buildRecords draws, r.1 ∈ order) := by
  refine ⟨rfl, rfl, ?_, ?_, ?_⟩
  · intro t
    simp [boxplotBoxes, Function.comp_def]
  · intro t
    simp [boxplotBoxes, order]
  · intro draws r hr
    simpa [segments, order] using buildRecords_fst_mem draws r hr

theorem box_order_witness :
    (("Value", (5:ℚ)) : String × ℚ) ∈ buildRecords [SegDraws.mk [2] [0] [3]] ∧
    (("Value", (5:ℚ)) : String × ℚ).1 ∈ order :=
  have hmem : (("Value", (5:ℚ)) : String × ℚ) ∈ buildRecords [SegDraws.mk [2] [0] [3]] := by
    norm_num [buildRecords, segments, segmentRows, segmentAmounts, injectOutliers,
      clipAmounts, outlierCount, max_def]
  ⟨hmem, box_order.2.2.2.2 [SegDraws.mk [2] [0] [3]] ("Value", 5) hmem⟩

/-- C3: with the draw sizes the script requests (400, 400, 350, 250 base
and noise samples, 8, 8, 7, 5 outlier draws), the generated table has
exactly 1400 rows, with exactly the configured count for each segment. -/
theorem table_counts (d0 d1 d2 d3 : SegDraws)
    (hb0 : d0.base.length = 400) (hn0 : d0.noise.length = 400)
    (ho0 : d0.outliers.length = 8)
    (hb1 : d1.base.length = 400) (hn1 : d1.noise.length = 400)
    (ho1 : d1.outliers.length = 8)
    (hb2 : d2.base.length = 350) (hn2 : d2.noise.length = 350)
    (ho2 : d2.outliers.length = 7)
    (hb3 : d3.base.length = 250) (hn3 : d3.noise.length = 250)
    (ho3 : d3.outliers.length = 5) :
    (buildRecords [d0, d1, d2, d3]).length = 1400 ∧
    (buildRecords [d0, d1, d2, d3]).countP (fun r => r.1 == "Value") = 400 ∧
    (buildRecords [d0, d1, d2, d3]).countP (fun r => r.1 == "Mid") = 400 ∧
    (buildRecords [d0, d1, d2, d3]).countP (fun r => r.1 == "Premium") = 350 ∧
    (buildRecords [d0, d1, d2, d3]).countP (fun r => r.1 == "VIP") = 250 := by
  have e : buildRecords [d0, d1, d2, d3] =
      segmentRows ⟨"Value", 3.2, 0.55, 400⟩ d0 ++
      (segmentRows ⟨"Mid", 3.8, 0.50, 400⟩ d1 ++
      (segmentRows ⟨"Premium", 4.3, 0.45, 350⟩ d2 ++
      (segmentRows ⟨"VIP", 4.8, 0.40, 250⟩ d3 ++ []))) := rfl
  have a0 : (segmentAmounts ⟨"Value", 3.2, 0.55, 400⟩ d0).length = 400 :=
    segmentAmounts_length _ d0 hb0 hn0 (by norm_num [outlierCount, ho0]) (by decide)
  have a1 : (segmentAmounts ⟨"Mid", 3.8, 0.50, 400⟩ d1).length = 400 :=
    segmentAmounts_length _ d1 hb1 hn1 (by norm_num [outlierCount, ho1]) (by decide)
  have a2 : (segmentAmounts ⟨"Premium", 4.3, 0.45, 350⟩ d2).length = 350 :=
    segmentAmounts_length _ d2 hb2 hn2 (by norm_num [outlierCount, ho2]) (by decide)
  have a3 : (segmentAmounts ⟨"VIP", 4.8, 0.40, 250⟩ d3).length = 250 :=
    segmentAmounts_length _ d3 hb3 hn3 (by norm_num [outlierCount, ho3]) (by decide)
  refine ⟨?_, ?_, ?_, ?_, ?_⟩
  · rw [e]
    simp only [segmentRows, List.length_append, List.length_map, List.length_nil,
      a0, a1, a2, a3]
  · rw [e]
    simp only [segmentRows, List.countP_append, List.countP_nil]
    rw [countP_label_self, countP_label_ne _ _ _ (by decide),
      countP_label_ne _ _ _ (by decide), countP_label_ne _ _ _ (by decide), a0]
  · rw [e]
    simp only [segmentRows, List.countP_append, List.countP_nil]
    rw [countP_label_ne _ _ _ (by decide), countP_label_self,
      countP_label_ne _ _ _ (by decide), countP_label_ne _ _ _ (by decide), a1]
  · rw [e]
    simp only [segmentRows, List.countP_append, List.countP_nil]
    rw [countP_label_ne _ _ _ (by decide), countP_label_ne _ _ _ (by decide),
      countP_label_self, countP_label_ne _ _ _ (by decide), a2]
  · rw [e]
    simp only [segmentRows, List.countP_append, List.countP_nil]
    rw [countP_label_ne _ _ _ (by decide), countP_label_ne _ _ _ (by decide),
      countP_label_ne _ _ _ (by decide), countP_label_self, a3]

theorem table_counts_witness :
    (List.replicate 8 (30:ℚ)).length = 8 ∧
    (buildRecords
      [⟨List.replicate 400 20, List.replicate 400 0, List.replicate 8 30⟩,
       ⟨List.replicate 400 45, List.replicate 400 0, List.replicate 8 60⟩,
       ⟨List.replicate 350 70, List.replicate 350 0, List.replicate 7 80⟩,
       ⟨List.replicate 250 120, List.replicate 250 0, List.replicate 5 150⟩]).length = 1400 :=
  ⟨List.length_replicate 8 30,
    (table_counts _ _ _ _ (List.length_replicate 400 20) (List.length_replicate 400 0)
      (List.length_replicate 8 30) (List.length_replicate 400 45)
      (List.length_replicate 400 0) (List.length_replicate 8 60)
      (List.length_replicate 350 70) (List.length_replicate 350 0)
      (List.length_replicate 7 80) (List.length_replicate 250 120)
      (List.length_replicate 250 0) (List.length_replicate 5 150)).1⟩

/-- C4: the synthesis stage follows the spec's order per segment — draw
the base samples, add the noise, floor at 1, inject the additional
high-value draws — and concatenates the segments' rows: the code-side table
equals the spec-side pipeline whenever the outlier vectors have the sizes
the code requests (8, 8, 7, 5). -/
theorem synthesis_order (d0 d1 d2 d3 : SegDraws)
    (ho0 : d0.outliers.length = 8) (ho1 : d1.outliers.length = 8)
    (ho2 : d2.outliers.length = 7) (ho3 : d3.outliers.length = 5) :
    buildRecords [d0, d1, d2, d3] = specTable [d0, d1, d2, d3] := by
  have e0 := segmentRows_eq_spec ⟨"Value", 3.2, 0.55, 400⟩ d0
    (by norm_num [outlierCount, ho0])
  have e1 := segmentRows_eq_spec ⟨"Mid", 3.8, 0.50, 400⟩ d1
    (by norm_num [outlierCount, ho1])
  have e2 := segmentRows_eq_spec ⟨"Premium", 4.3, 0.45, 350⟩ d2
    (by norm_num [outlierCount, ho2])
  have e3 := segmentRows_eq_spec ⟨"VIP", 4.8, 0.40, 250⟩ d3
    (by norm_num [outlierCount, ho3])
  have lhs : buildRecords [d0, d1, d2, d3] =
      segmentRows ⟨"Value", 3.2, 0.55, 400⟩ d0 ++
      (segmentRows ⟨"Mid", 3.8, 0.50, 400⟩ d1 ++
      (segmentRows ⟨"Premium", 4.3, 0.45, 350⟩ d2 ++
      (segmentRows ⟨"VIP", 4.8, 0.40, 250⟩ d3 ++ []))) := rfl
  have rhs : specTable [d0, d1, d2, d3] =
      specSegmentRows ⟨"Value", 3.2, 0.55, 400⟩ d0 ++
      (specSegmentRows ⟨"Mid", 3.8, 0.50, 400⟩ d1 ++
      (specSegmentRows ⟨"Premium", 4.3, 0.45, 350⟩ d2 ++
      (specSegmentRows ⟨"VIP", 4.8, 0.40, 250⟩ d3 ++ []))) := rfl
  rw [lhs, rhs, e0, e1, e2, e3]

theorem synthesis_order_witness :
    (List.replicate 8 (3:ℚ)).length = 8 ∧
    buildRecords [⟨[], [], List.replicate 8 3⟩, ⟨[], [], List.replicate 8 3⟩,
      ⟨[], [], List.replicate 7 3⟩, ⟨[], [], List.replicate 5 3⟩] =
    specTable [⟨[], [], List.replicate 8 3⟩, ⟨[], [], List.replicate 8 3⟩,
      ⟨[], [], List.replicate 7 3⟩, ⟨[], [], List.replicate 5 3⟩] :=
  ⟨List.length_replicate 8 3,
    synthesis_order _ _ _ _ (List.length_replicate 8 3) (List.length_replicate 8 3)
      (List.length_replicate 7 3) (List.length_replicate 5 3)⟩

/-- C10: the y tick labels follow line 82 exactly: the code-side label (a
dollar sign then the comma-grouped Python `int` truncation for `t >= 1`, a
dollar sign then the two-decimal rendering for `t < 1`) coincides with the
claim's reading built on sign-magnitude truncation, and evaluates as
expected on representative ticks of both branches. -/
theorem tick_label_format :
    (∀ t : ℚ, tickLabel t = specTickLabel t) ∧
    tickLabel 1234 = "$1,234" ∧
    tickLabel 512 = "$512" ∧
    tickLabel (1/2) = "$0.50" ∧
    tickLabel (-3/4) = "$-0.75" := by
  refine ⟨?_, by rfl, by rfl, ?_, ?_⟩
  · intro t
    unfold tickLabel specTickLabel
    rw [pyInt_eq_ratTrunc]
  · simp only [tickLabel]
    rw [if_neg (by norm_num : ¬ (1:ℚ) ≤ 1/2)]
    simp only [fixed2]
    have h1 : (1/2 : ℚ) * 100 = 50 := by norm_num
    rw [h1]
    have h2 : roundHalfEven 50 = 50 := by
      simp only [roundHalfEven]
      norm_num
    rw [h2, if_neg (by norm_num : ¬ (1/2:ℚ) < 0)]
    rfl
  · simp only [tickLabel]
    rw [if_neg (by norm_num : ¬ (1:ℚ) ≤ -3/4)]
    simp only [fixed2]
    have h1 : (-3/4 : ℚ) * 100 = -75 := by norm_num
    rw [h1]
    have h2 : roundHalfEven (-75) = -75 := by
      simp only [roundHalfEven]
      norm_num
    rw [h2, if_pos (by norm_num : (-3/4:ℚ) < 0)]
    rfl
